import Mathlib

/-!
Verification of the sector-portal raycasting engine and its map editor.

The engine (src/helpers.cpp, src/main.cpp) and the editor (src/editor/edit.cpp)
are shallowly embedded below. C++ doubles are modelled as exact rationals (ℚ),
C++ ints as ℤ/ℕ; `(int)` casts on doubles are truncation toward zero; the
square root in pointToSegmentDistance is handled by working with the squared
distance (the source only compares the distance against a nonnegative radius,
and sqrt d < r with 0 ≤ r is equivalent to d < r^2). Map files are modelled as
lists of lines, each line abstracted to its list of numeric tokens; an
integer extraction from a token succeeds exactly when the token is integral.
-/

namespace Engine

/-- struct Wall of src/helpers.h. -/
structure Wall where
  x1 : ℚ
  y1 : ℚ
  x2 : ℚ
  y2 : ℚ
  isPortal : Bool
  adjoiningSector : ℤ
deriving Repr, DecidableEq

/-- struct Sector of src/helpers.h. -/
structure Sector where
  walls : List Wall
  floorHeight : ℚ := 0
  ceilingHeight : ℚ := 3
deriving Repr, DecidableEq

instance : Inhabited Sector := ⟨⟨[], 0, 3⟩⟩

/-- intersectRayWithSegment of src/helpers.cpp. Returns the ray parameter t
(the source writes it to outDist and returns true) or none (returns false). -/
def intersectRayWithSegment (rayX rayY rayDX rayDY x1 y1 x2 y2 : ℚ) : Option ℚ :=
  let rdx := rayDX
  let rdy := rayDY
  let sdx := x2 - x1
  let sdy := y2 - y1
  let denom := rdx * sdy - rdy * sdx
  if |denom| < 1 / 1000000 then none
  else
    let dx := x1 - rayX
    let dy := y1 - rayY
    let t := (dx * sdy - dy * sdx) / denom
    let u := (dx * rdy - dy * rdx) / denom
    if 0 < t ∧ 0 ≤ u ∧ u ≤ 1 then some t else none

/-- The crossing test of one wall in getSectorForPosition (src/helpers.cpp):
`((y1 > y) != (y2 > y)) && (x < (x2 - x1) * (y - y1) / (y2 - y1 + 1e-6) + x1)`. -/
def wallCrossing (x y : ℚ) (w : Wall) : Bool :=
  (decide (w.y1 > y) != decide (w.y2 > y)) &&
    decide (x < (w.x2 - w.x1) * (y - w.y1) / (w.y2 - w.y1 + 1 / 1000000) + w.x1)

/-- The crossings counter of getSectorForPosition's inner loop. -/
def crossings (x y : ℚ) (s : Sector) : ℕ :=
  s.walls.foldl (fun c w => if wallCrossing x y w then c + 1 else c) 0

/-- `crossings % 2 == 1`: the even-odd containment test of getSectorForPosition. -/
def pointInSector (x y : ℚ) (s : Sector) : Bool :=
  crossings x y s % 2 == 1

/-- The loop of getSectorForPosition, carrying the loop counter i. -/
def getSectorForPositionAux (x y : ℚ) : List Sector → ℕ → ℤ
  | [], _ => -1
  | s :: rest, i => if pointInSector x y s then (i : ℤ) else getSectorForPositionAux x y rest (i + 1)

/-- getSectorForPosition of src/helpers.cpp: first sector containing (x, y), else -1. -/
def getSectorForPosition (secs : List Sector) (x y : ℚ) : ℤ :=
  getSectorForPositionAux x y secs 0

/-- The square of pointToSegmentDistance of src/helpers.cpp. The source returns
the square root of this value; every use compares it against a nonnegative
radius, which is equivalent to comparing this square against the radius squared. -/
def pointToSegmentDistanceSq (px py x1 y1 x2 y2 : ℚ) : ℚ :=
  let dx := x2 - x1
  let dy := y2 - y1
  if dx = 0 ∧ dy = 0 then (px - x1) ^ 2 + (py - y1) ^ 2
  else
    let t := ((px - x1) * dx + (py - y1) * dy) / (dx * dx + dy * dy)
    let t' := if t < 0 then 0 else if t > 1 then 1 else t
    let closestX := x1 + t' * dx
    let closestY := y1 + t' * dy
    (px - closestX) ^ 2 + (py - closestY) ^ 2

/-- COLLISION_RADIUS of src/helpers.cpp. -/
def COLLISION_RADIUS : ℚ := 1 / 10

/-- isMovementBlocked of src/helpers.cpp (the `dist < COLLISION_RADIUS` test is
taken squared, see pointToSegmentDistanceSq). -/
def isMovementBlocked (secs : List Sector) (newX newY : ℚ) : Bool :=
  let sector := getSectorForPosition secs newX newY
  if sector = -1 then true
  else
    (secs.getD sector.toNat default).walls.any fun w =>
      !w.isPortal &&
        decide (pointToSegmentDistanceSq newX newY w.x1 w.y1 w.x2 w.y2 < COLLISION_RADIUS ^ 2)

/-! ## The portal raycaster (renderFrame of src/main.cpp, one screen column) -/

/-- The hit state of renderFrame's scan: closestDist, hitWall (the wall the
source keeps a pointer to), the sector it lives in (the source keeps its index
and reads sectors[hitSectorIndex]), and the sector/wall iteration positions. -/
structure Hit where
  dist : ℚ
  wall : Wall
  sec : Sector
  si : ℕ
  wi : ℕ
deriving Repr, DecidableEq

/-- `if (dist < closestDist) { closestDist = dist; hitWall = ...; }` — none plays
the role of the infinity sentinel closestDist starts at. -/
def updateHit (acc : Option Hit) (h : Hit) : Option Hit :=
  match acc with
  | none => some h
  | some h0 => if h.dist < h0.dist then some h else some h0

/-- The inner wall loop of renderFrame's global scan, for sector si. -/
def scanWalls (rx ry dx dy : ℚ) (si : ℕ) (s : Sector) (acc : Option Hit) : Option Hit :=
  s.walls.enum.foldl
    (fun a q =>
      match intersectRayWithSegment rx ry dx dy q.2.x1 q.2.y1 q.2.x2 q.2.y2 with
      | some d => updateHit a ⟨d, q.2, s, si, q.1⟩
      | none => a)
    acc

/-- The full scan of renderFrame: test the ray against every wall of every
sector, keep the nearest hit. -/
def findClosestHit (secs : List Sector) (rx ry dx dy : ℚ) : Option Hit :=
  secs.enum.foldl (fun a p => scanWalls rx ry dx dy p.1 p.2 a) none

/-- The colors the three per-iteration drawVerticalLine calls use. -/
inductive SpanKind where
  | ceiling : SpanKind
  | wallBody (isPortal : Bool) : SpanKind
  | floor : SpanKind
deriving Repr, DecidableEq

/-- One drawVerticalLine call: the vertical pixel range and the span's color. -/
structure DrawEvent where
  top : ℤ
  bottom : ℤ
  kind : SpanKind
deriving Repr, DecidableEq

/-- Truncation toward zero: the semantics of the source's (int) casts on doubles. -/
def ratTrunc (q : ℚ) : ℤ :=
  q.num.tdiv q.den

/-- SCREEN_HEIGHT of src/main.cpp. -/
def SCREEN_HEIGHT : ℤ := 720

/-- The three drawVerticalLine calls one iteration of renderFrame's depth loop
issues, with the screen-row arithmetic of src/main.cpp (720 = SCREEN_HEIGHT,
360 = SCREEN_HEIGHT / 2; lineHeight / 2 is C++ int division). -/
def drawsForHit (h : Hit) (td playerHeight : ℚ) : List DrawEvent :=
  let floorHeight := h.sec.floorHeight
  let ceilingHeight := h.sec.ceilingHeight
  let ceilingScreenY := max 0 (ratTrunc (360 - (ceilingHeight - playerHeight) * 720 / td))
  let floorScreenY := min 719 (ratTrunc (360 + (playerHeight - floorHeight) * 720 / td))
  let lineHeight := ratTrunc (720 / td)
  let drawStart := ceilingScreenY
  let drawEnd := floorScreenY
  let pair :=
    if drawEnd < drawStart then
      let ds := max 0 (360 - lineHeight.tdiv 2)
      (ds, min 719 (ds + lineHeight))
    else (drawStart, drawEnd)
  [⟨0, ceilingScreenY, SpanKind.ceiling⟩,
   ⟨pair.1, pair.2, SpanKind.wallBody h.wall.isPortal⟩,
   ⟨floorScreenY, 720, SpanKind.floor⟩]

/-- One iteration of the depth loop: the hit it selected, the accumulated
distance after `totalDist += closestDist`, and the draw calls it issued. -/
structure Step where
  hit : Hit
  totalDist : ℚ
  draws : List DrawEvent
deriving Repr, DecidableEq

/-- The depth loop of renderFrame for one column, as the list of its
iterations. Mirrors src/main.cpp lines 34-92: global nearest-hit scan, draw,
stop on solid walls, epsilon push 0.01 past portals, stop when the portal's
adjoining sector index is out of range (checked before it is ever used). -/
def castColumnAux (secs : List Sector) (rayDirX rayDirY playerHeight : ℚ) :
    ℕ → ℚ → ℚ → ℚ → List Step
  | 0, _, _, _ => []
  | depth + 1, rayX, rayY, totalDist =>
    match findClosestHit secs rayX rayY rayDirX rayDirY with
    | none => []
    | some h =>
      let td := totalDist + h.dist
      let step : Step := ⟨h, td, drawsForHit h td playerHeight⟩
      if !h.wall.isPortal then [step]
      else
        let rayX' := rayX + rayDirX * (h.dist + 1 / 100)
        let rayY' := rayY + rayDirY * (h.dist + 1 / 100)
        let currentSector := h.wall.adjoiningSector
        if currentSector < 0 ∨ (secs.length : ℤ) ≤ currentSector then [step]
        else step :: castColumnAux secs rayDirX rayDirY playerHeight depth rayX' rayY' td

/-- MAX_PORTAL_DEPTH of src/main.cpp. -/
def MAX_PORTAL_DEPTH : ℕ := 10

/-- playerEyeHeightOffset of src/main.cpp. -/
def playerEyeHeightOffset : ℚ := 1

/-- One column of renderFrame: locate the player's sector (return nothing when
outside all sectors), derive the eye height, run the bounded depth loop. -/
def renderColumn (secs : List Sector) (posX posY rayDirX rayDirY : ℚ) : List Step :=
  let playerSector := getSectorForPosition secs posX posY
  if playerSector = -1 then []
  else
    let playerHeight := (secs.getD playerSector.toNat default).floorHeight + playerEyeHeightOffset
    castColumnAux secs rayDirX rayDirY playerHeight MAX_PORTAL_DEPTH posX posY 0

/-- Specification device for C1: the ray hits among one sector's walls, in
wall iteration order. -/
def sectorCandidates (rx ry dx dy : ℚ) (si : ℕ) (s : Sector) : List Hit :=
  s.walls.enum.filterMap fun q =>
    (intersectRayWithSegment rx ry dx dy q.2.x1 q.2.y1 q.2.x2 q.2.y2).map
      fun d => ⟨d, q.2, s, si, q.1⟩

/-- Specification device for C1: every (sector, wall) ray hit, in the
sector-then-wall iteration order of renderFrame's scan. -/
def rayCandidates (secs : List Sector) (rx ry dx dy : ℚ) : List Hit :=
  secs.enum.flatMap fun p => sectorCandidates rx ry dx dy p.1 p.2

/-- Folding updateHit over a candidate list: the scan, flattened. -/
def pickHit (acc : Option Hit) (cands : List Hit) : Option Hit :=
  cands.foldl updateHit acc

end Engine

namespace Engine

/-! ## Sector locator lemmas (C5, C10) -/

theorem getSectorForPositionAux_range (x y : ℚ) (l : List Sector) :
    ∀ k : ℕ, getSectorForPositionAux x y l k = -1 ∨
      ((k : ℤ) ≤ getSectorForPositionAux x y l k ∧
        getSectorForPositionAux x y l k < (k : ℤ) + l.length) := by
  induction l with
  | nil => intro k; left; rfl
  | cons s rest ih =>
    intro k
    by_cases hs : pointInSector x y s = true
    · right
      simp only [getSectorForPositionAux, hs, if_true, List.length_cons]
      push_cast
      omega
    · have hrw : getSectorForPositionAux x y (s :: rest) k =
          getSectorForPositionAux x y rest (k + 1) := by
        simp [getSectorForPositionAux, hs]
      rw [hrw]
      rcases ih (k + 1) with h | ⟨h1, h2⟩
      · left; exact h
      · right
        simp only [List.length_cons]
        push_cast at h1 h2 ⊢
        omega

theorem getSectorForPositionAux_spec (x y : ℚ) (l : List Sector) :
    ∀ k : ℕ,
      (getSectorForPositionAux x y l k = -1 ↔ ∀ s ∈ l, pointInSector x y s = false) ∧
      (∀ i : ℕ, getSectorForPositionAux x y l k = ((k + i : ℕ) : ℤ) ↔
        ((∃ s, l[i]? = some s ∧ pointInSector x y s = true) ∧
          ∀ s ∈ l.take i, pointInSector x y s = false)) := by
  induction l with
  | nil =>
    intro k
    refine ⟨by simp [getSectorForPositionAux], fun i => ?_⟩
    simp only [getSectorForPositionAux, List.getElem?_nil, List.take_nil,
      List.not_mem_nil, false_and, exists_false, IsEmpty.forall_iff, implies_true, and_true]
    constructor
    · intro h
      omega
    · intro h
      exact absurd h (by simp)
  | cons s rest ih =>
    intro k
    by_cases hs : pointInSector x y s = true
    · refine ⟨?_, fun i => ?_⟩
      · simp only [getSectorForPositionAux, hs, if_true]
        constructor
        · intro h
          omega
        · intro h
          exact absurd (h s (List.mem_cons_self s rest)) (by simp [hs])
      · match i with
        | 0 => simp [getSectorForPositionAux, hs]
        | i' + 1 =>
          simp only [getSectorForPositionAux, hs, if_true]
          constructor
          · intro h
            exfalso
            omega
          · rintro ⟨-, hall⟩
            exact absurd (hall s (by simp)) (by simp [hs])
    · have hsf : pointInSector x y s = false := by
        cases hb : pointInSector x y s with
        | false => rfl
        | true => exact absurd hb hs
      have hrw : getSectorForPositionAux x y (s :: rest) k =
          getSectorForPositionAux x y rest (k + 1) := by
        simp [getSectorForPositionAux, hs]
      refine ⟨?_, fun i => ?_⟩
      · rw [hrw, (ih (k + 1)).1]
        simp [List.forall_mem_cons, hsf]
      · match i with
        | 0 =>
          rw [hrw]
          constructor
          · intro h
            exfalso
            rcases getSectorForPositionAux_range x y rest (k + 1) with h1 | ⟨h1, h2⟩ <;> omega
          · rintro ⟨⟨s', hget, htrue⟩, -⟩
            rw [List.getElem?_cons_zero] at hget
            obtain rfl : s = s' := by injection hget
            exact absurd htrue (by simp [hsf])
        | i' + 1 =>
          rw [hrw]
          have hcast : ((k + (i' + 1) : ℕ) : ℤ) = (((k + 1) + i' : ℕ) : ℤ) := by
            push_cast
            ring
          rw [hcast, (ih (k + 1)).2 i']
          simp [List.take_succ_cons, List.forall_mem_cons, hsf, List.getElem?_cons_succ]

/-- C5: getSectorForPosition scans the sector collection in order and returns
the index of the first sector whose even-odd crossing test succeeds: it
returns -1 exactly when no sector contains the point, and returns index i
exactly when sector i contains the point and every sector before i does not —
so a point inside exactly one sector yields that sector's index, and a point
in the overlap of two sectors yields the lower of the two indices. -/
theorem getSectorForPosition_spec :
    ∀ (secs : List Sector) (x y : ℚ),
      (getSectorForPosition secs x y = -1 ↔ ∀ s ∈ secs, pointInSector x y s = false) ∧
      (∀ i : ℕ, getSectorForPosition secs x y = (i : ℤ) ↔
        ((∃ s, secs[i]? = some s ∧ pointInSector x y s = true) ∧
          ∀ s ∈ secs.take i, pointInSector x y s = false)) := by
  intro secs x y
  have h := getSectorForPositionAux_spec x y secs 0
  refine ⟨h.1, fun i => ?_⟩
  have h2 := h.2 i
  simpa using h2

/-- C10: getSectorForPosition always returns -1 or an index in [0, size); so
the sectors[sector] access in isMovementBlocked, which runs only after the -1
guard, is always in bounds. -/
theorem getSectorForPosition_inBounds :
    ∀ (secs : List Sector) (x y : ℚ),
      getSectorForPosition secs x y = -1 ∨
        (0 ≤ getSectorForPosition secs x y ∧
          (getSectorForPosition secs x y).toNat < secs.length) := by
  intro secs x y
  simp only [getSectorForPosition]
  rcases getSectorForPositionAux_range x y secs 0 with h | ⟨h1, h2⟩
  · left
    exact h
  · right
    refine ⟨h1, ?_⟩
    omega

end Engine

namespace Engine

/-! ## Collision resolver (C2) -/

/-- The concrete scenario of C2: a 5×5 square sector whose four walls are all
solid, among them the wall from (0,0) to (0,5). -/
def collisionDemo : Sector :=
  ⟨[⟨0, 0, 0, 5, false, -1⟩, ⟨0, 5, 5, 5, false, -1⟩,
    ⟨5, 5, 5, 0, false, -1⟩, ⟨5, 0, 0, 0, false, -1⟩], 0, 3⟩

/-- C2: a position outside every sector is blocked; a position inside a sector
is blocked exactly when some non-portal wall of that sector is closer than the
collision radius 0.1 (portal walls are ignored by the scan, so they never cause
blocking at any distance); and in the concrete scenario with the solid wall
from (0,0) to (0,5), the position (0.05, 2) is blocked while (0.15, 2) is not. -/
theorem isMovementBlocked_spec :
    (∀ (secs : List Sector) (x y : ℚ),
      (getSectorForPosition secs x y = -1 → isMovementBlocked secs x y = true) ∧
      (∀ i : ℕ, getSectorForPosition secs x y = (i : ℤ) →
        (isMovementBlocked secs x y = true ↔
          ∃ w ∈ (secs.getD i default).walls, w.isPortal = false ∧
            pointToSegmentDistanceSq x y w.x1 w.y1 w.x2 w.y2 < COLLISION_RADIUS ^ 2))) ∧
    isMovementBlocked [collisionDemo] (1 / 20) 2 = true ∧
    isMovementBlocked [collisionDemo] (3 / 20) 2 = false := by
  refine ⟨fun secs x y => ⟨?_, ?_⟩, ?_, ?_⟩
  case refine_3 =>
    norm_num [isMovementBlocked, getSectorForPosition, getSectorForPositionAux, pointInSector,
      crossings, wallCrossing, pointToSegmentDistanceSq, collisionDemo, COLLISION_RADIUS]
  case refine_4 =>
    norm_num [isMovementBlocked, getSectorForPosition, getSectorForPositionAux, pointInSector,
      crossings, wallCrossing, pointToSegmentDistanceSq, collisionDemo, COLLISION_RADIUS]
  · intro h
    simp [isMovementBlocked, h]
  · intro i h
    simp only [isMovementBlocked, h]
    rw [if_neg (by omega)]
    simp [List.any_eq_true, Bool.and_eq_true, Bool.not_eq_true', decide_eq_true_eq]

/-! ## Depth bound and termination of the portal loop (C6) -/

theorem castColumnAux_length_le (secs : List Sector) (dx dy ph : ℚ) :
    ∀ (fuel : ℕ) (rx ry td : ℚ), (castColumnAux secs dx dy ph fuel rx ry td).length ≤ fuel := by
  intro fuel
  induction fuel with
  | zero => intro rx ry td; simp [castColumnAux]
  | succ n ih =>
    intro rx ry td
    cases hfc : findClosestHit secs rx ry dx dy with
    | none => simp [castColumnAux, hfc]
    | some h =>
      simp only [castColumnAux, hfc]
      cases hw : h.wall.isPortal with
      | false =>
        rw [if_pos (by simp [hw])]
        simp only [List.length_singleton]
        omega
      | true =>
        rw [if_neg (by simp [hw])]
        by_cases hinv : h.wall.adjoiningSector < 0 ∨ (secs.length : ℤ) ≤ h.wall.adjoiningSector
        · rw [if_pos hinv]
          simp only [List.length_singleton]
          omega
        · rw [if_neg hinv]
          simp only [List.length_cons]
          exact Nat.succ_le_succ (ih _ _ _)

theorem castColumnAux_monotone (secs : List Sector) (dx dy ph : ℚ) :
    ∀ (fuel k : ℕ) (rx ry td : ℚ),
      ∃ tail, castColumnAux secs dx dy ph (fuel + k) rx ry td =
        castColumnAux secs dx dy ph fuel rx ry td ++ tail := by
  intro fuel
  induction fuel with
  | zero =>
    intro k rx ry td
    exact ⟨castColumnAux secs dx dy ph k rx ry td, by simp [castColumnAux]⟩
  | succ n ih =>
    intro k rx ry td
    have hshift : n + 1 + k = (n + k) + 1 := by omega
    rw [hshift]
    cases hfc : findClosestHit secs rx ry dx dy with
    | none => exact ⟨[], by simp [castColumnAux, hfc]⟩
    | some h =>
      simp only [castColumnAux, hfc]
      cases hw : h.wall.isPortal with
      | false =>
        rw [if_pos (by simp), if_pos (by simp)]
        exact ⟨[], by simp⟩
      | true =>
        by_cases hinv : h.wall.adjoiningSector < 0 ∨ (secs.length : ℤ) ≤ h.wall.adjoiningSector
        · rw [if_neg (by simp), if_pos hinv, if_neg (by simp), if_pos hinv]
          exact ⟨[], by simp⟩
        · rw [if_neg (by simp), if_neg hinv, if_neg (by simp), if_neg hinv]
          obtain ⟨tail, htail⟩ := ih k _ _ _
          exact ⟨tail, by rw [htail, List.cons_append]⟩

theorem castColumnAux_draws_three (secs : List Sector) (dx dy ph : ℚ) :
    ∀ (fuel : ℕ) (rx ry td : ℚ) (st : Step),
      st ∈ castColumnAux secs dx dy ph fuel rx ry td → st.draws.length = 3 := by
  intro fuel
  induction fuel with
  | zero => intro rx ry td st hst; simp [castColumnAux] at hst
  | succ n ih =>
    intro rx ry td st hst
    cases hfc : findClosestHit secs rx ry dx dy with
    | none => simp [castColumnAux, hfc] at hst
    | some h =>
      simp only [castColumnAux, hfc] at hst
      cases hw : h.wall.isPortal with
      | false =>
        rw [if_pos (by simp [hw])] at hst
        simp at hst
        subst hst
        simp [drawsForHit]
      | true =>
        rw [if_neg (by simp [hw])] at hst
        by_cases hinv : h.wall.adjoiningSector < 0 ∨ (secs.length : ℤ) ≤ h.wall.adjoiningSector
        · rw [if_pos hinv] at hst
          simp at hst
          subst hst
          simp [drawsForHit]
        · rw [if_neg hinv] at hst
          simp only [List.mem_cons] at hst
          rcases hst with hst | hst
          · subst hst
            simp [drawsForHit]
          · exact ih _ _ _ _ hst

/-- C6: for every screen column the portal loop runs at most MAX_PORTAL_DEPTH
(= 10) iterations; running it with a larger bound only appends further steps
(so the bounded run renders exactly the first maxDepth segments of a longer
chain); each iteration issues exactly three draw calls, so no draw call is
issued beyond the bound; and the loop is a total function, so the per-column
work always terminates. -/
theorem renderColumn_depthBound :
    (∀ (secs : List Sector) (dx dy ph : ℚ) (fuel k : ℕ) (rx ry td : ℚ),
      (castColumnAux secs dx dy ph fuel rx ry td).length ≤ fuel ∧
      ∃ tail, castColumnAux secs dx dy ph (fuel + k) rx ry td =
        castColumnAux secs dx dy ph fuel rx ry td ++ tail) ∧
    (∀ (secs : List Sector) (px py dx dy : ℚ),
      (renderColumn secs px py dx dy).length ≤ MAX_PORTAL_DEPTH ∧
      ∀ st ∈ renderColumn secs px py dx dy, st.draws.length = 3) := by
  constructor
  · intro secs dx dy ph fuel k rx ry td
    exact ⟨castColumnAux_length_le secs dx dy ph fuel rx ry td,
      castColumnAux_monotone secs dx dy ph fuel k rx ry td⟩
  · intro secs px py dx dy
    constructor
    · simp only [renderColumn]
      split
      · simp [MAX_PORTAL_DEPTH]
      · exact castColumnAux_length_le _ _ _ _ _ _ _ _
    · intro st hst
      simp only [renderColumn] at hst
      split at hst
      · simp at hst
      · exact castColumnAux_draws_three _ _ _ _ _ _ _ _ st hst

/-! ## Invalid portal references terminate the chain (C7) -/

/-- C7: when the nearest hit of a depth step is a portal wall whose adjoining
sector index is out of range for the sector collection, the bounds check (which
runs before the index is ever used to address a sector) stops the column's
portal chain at that hit: the iteration draws the portal wall and no further
step occurs. -/
theorem castColumnAux_invalidPortal :
    ∀ (secs : List Sector) (dx dy ph : ℚ) (fuel : ℕ) (rx ry td : ℚ) (h : Hit),
      findClosestHit secs rx ry dx dy = some h →
      h.wall.isPortal = true →
      (h.wall.adjoiningSector < 0 ∨ (secs.length : ℤ) ≤ h.wall.adjoiningSector) →
      castColumnAux secs dx dy ph (fuel + 1) rx ry td =
        [⟨h, td + h.dist, drawsForHit h (td + h.dist) ph⟩] := by
  intro secs dx dy ph fuel rx ry td h hfc hb hinv
  simp only [castColumnAux, hfc]
  rw [if_neg (by simp [hb]), if_pos hinv]

/-- The concrete map of C7's witness: one square sector whose east wall is a
portal pointing at the nonexistent sector 7. -/
def badPortalSector : Sector :=
  ⟨[⟨0, 0, 4, 0, false, -1⟩, ⟨4, 0, 4, 4, true, 7⟩,
    ⟨4, 4, 0, 4, false, -1⟩, ⟨0, 4, 0, 0, false, -1⟩], 0, 3⟩

def badPortalMap : List Sector := [badPortalSector]

def badPortalHit : Hit := ⟨2, ⟨4, 0, 4, 4, true, 7⟩, badPortalSector, 0, 1⟩

theorem castColumnAux_invalidPortal_witness :
    castColumnAux badPortalMap 1 0 1 10 2 2 0 =
      [⟨badPortalHit, 0 + badPortalHit.dist,
        drawsForHit badPortalHit (0 + badPortalHit.dist) 1⟩] :=
  castColumnAux_invalidPortal badPortalMap 1 0 1 9 2 2 0 badPortalHit
    (by norm_num [findClosestHit, scanWalls, intersectRayWithSegment, updateHit, badPortalMap,
      badPortalSector, badPortalHit, List.enum, List.enumFrom])
    (by norm_num [badPortalHit])
    (by norm_num [badPortalHit, badPortalMap])

end Engine

namespace Engine

/-! ## Nearest-hit selection of the global scan (C1) -/

theorem intersect_pos {rx ry dx dy x1 y1 x2 y2 d : ℚ}
    (h : intersectRayWithSegment rx ry dx dy x1 y1 x2 y2 = some d) : 0 < d := by
  simp only [intersectRayWithSegment] at h
  split_ifs at h with h1 h2
  obtain rfl : _ = d := by injection h
  exact h2.1

theorem foldl_scan_eq_pickHit (rx ry dx dy : ℚ) (s : Sector) (si : ℕ) :
    ∀ (l : List (ℕ × Wall)) (acc : Option Hit),
      l.foldl
        (fun a q =>
          match intersectRayWithSegment rx ry dx dy q.2.x1 q.2.y1 q.2.x2 q.2.y2 with
          | some d => updateHit a ⟨d, q.2, s, si, q.1⟩
          | none => a) acc
      = pickHit acc (l.filterMap fun q =>
          (intersectRayWithSegment rx ry dx dy q.2.x1 q.2.y1 q.2.x2 q.2.y2).map
            fun d => ⟨d, q.2, s, si, q.1⟩) := by
  intro l
  induction l with
  | nil => intro acc; simp [pickHit]
  | cons q rest ih =>
    intro acc
    cases hq : intersectRayWithSegment rx ry dx dy q.2.x1 q.2.y1 q.2.x2 q.2.y2 with
    | none =>
      simp only [List.foldl_cons, List.filterMap_cons, hq]
      exact ih acc
    | some d =>
      simp only [List.foldl_cons, List.filterMap_cons, hq, Option.map_some', pickHit,
        List.foldl_cons]
      exact ih _

theorem scanWalls_eq_pickHit (rx ry dx dy : ℚ) (si : ℕ) (s : Sector) (acc : Option Hit) :
    scanWalls rx ry dx dy si s acc = pickHit acc (sectorCandidates rx ry dx dy si s) :=
  foldl_scan_eq_pickHit rx ry dx dy s si s.walls.enum acc

theorem pickHit_append (acc : Option Hit) (l1 l2 : List Hit) :
    pickHit acc (l1 ++ l2) = pickHit (pickHit acc l1) l2 := by
  simp [pickHit, List.foldl_append]

theorem findClosestHit_eq_pickHit (secs : List Sector) (rx ry dx dy : ℚ) :
    findClosestHit secs rx ry dx dy = pickHit none (rayCandidates secs rx ry dx dy) := by
  suffices hgen : ∀ (l : List (ℕ × Sector)) (acc : Option Hit),
      l.foldl (fun a p => scanWalls rx ry dx dy p.1 p.2 a) acc =
        pickHit acc (l.flatMap fun p => sectorCandidates rx ry dx dy p.1 p.2) by
    exact hgen secs.enum none
  intro l
  induction l with
  | nil => intro acc; simp [pickHit]
  | cons p rest ih =>
    intro acc
    simp only [List.foldl_cons, List.flatMap_cons]
    rw [pickHit_append, ← scanWalls_eq_pickHit]
    exact ih _

theorem pickHit_some_spec :
    ∀ (l : List Hit) (h0 : Hit),
      ∃ r, pickHit (some h0) l = some r ∧
        ∃ l1 l2, h0 :: l = l1 ++ r :: l2 ∧
          (∀ c ∈ l1, r.dist < c.dist) ∧ (∀ c ∈ l2, r.dist ≤ c.dist) := by
  intro l
  induction l with
  | nil =>
    intro h0
    exact ⟨h0, rfl, [], [], rfl, by simp, by simp⟩
  | cons c l ih =>
    intro h0
    have hstep : pickHit (some h0) (c :: l) =
        pickHit (some (if c.dist < h0.dist then c else h0)) l := by
      simp [pickHit, updateHit, apply_ite]
    by_cases hlt : c.dist < h0.dist
    · rw [hstep, if_pos hlt]
      obtain ⟨r, hr, l1, l2, hdec, hl1, hl2⟩ := ih c
      refine ⟨r, hr, ?_⟩
      cases l1 with
      | nil =>
        simp only [List.nil_append] at hdec
        injection hdec with h1 h2
        subst h1 h2
        exact ⟨[h0], l, rfl, by simpa using hlt, hl2⟩
      | cons a t =>
        simp only [List.cons_append] at hdec
        injection hdec with h1 h2
        subst h1
        have hrc : r.dist < c.dist := hl1 c (List.mem_cons_self c t)
        refine ⟨h0 :: c :: t, l2, by simp [h2], ?_, hl2⟩
        intro x hx
        rcases List.mem_cons.mp hx with rfl | hx
        · exact hrc.trans hlt
        rcases List.mem_cons.mp hx with rfl | hx
        · exact hrc
        · exact hl1 x (List.mem_cons_of_mem _ hx)
    · have hge : h0.dist ≤ c.dist := not_lt.mp hlt
      rw [hstep, if_neg hlt]
      obtain ⟨r, hr, l1, l2, hdec, hl1, hl2⟩ := ih h0
      refine ⟨r, hr, ?_⟩
      cases l1 with
      | nil =>
        simp only [List.nil_append] at hdec
        injection hdec with h1 h2
        subst h2
        obtain rfl : h0 = r := h1
        refine ⟨[], c :: l, rfl, by simp, ?_⟩
        intro x hx
        rcases List.mem_cons.mp hx with rfl | hx
        · exact hge
        · exact hl2 x hx
      | cons a t =>
        simp only [List.cons_append] at hdec
        injection hdec with h1 h2
        subst h1
        have hrh : r.dist < h0.dist := hl1 h0 (List.mem_cons_self h0 t)
        refine ⟨h0 :: c :: t, l2, by simp [h2], ?_, hl2⟩
        intro x hx
        rcases List.mem_cons.mp hx with rfl | hx
        · exact hrh
        rcases List.mem_cons.mp hx with rfl | hx
        · exact hrh.trans_le hge
        · exact hl1 x (List.mem_cons_of_mem _ hx)

theorem pickHit_none_iff : ∀ l : List Hit, pickHit none l = none ↔ l = [] := by
  intro l
  cases l with
  | nil => simp [pickHit]
  | cons c t =>
    have hstep : pickHit none (c :: t) = pickHit (some c) t := rfl
    obtain ⟨r, hr, -⟩ := pickHit_some_spec t c
    rw [hstep, hr]
    simp

theorem rayCandidates_pos (secs : List Sector) (rx ry dx dy : ℚ) :
    ∀ c ∈ rayCandidates secs rx ry dx dy, 0 < c.dist := by
  intro c hc
  simp only [rayCandidates, List.mem_flatMap] at hc
  obtain ⟨p, hp, hc⟩ := hc
  simp only [sectorCandidates, List.mem_filterMap] at hc
  obtain ⟨q, hq, hc⟩ := hc
  cases hi : intersectRayWithSegment rx ry dx dy q.2.x1 q.2.y1 q.2.x2 q.2.y2 with
  | none => rw [hi] at hc; simp at hc
  | some d =>
    rw [hi] at hc
    simp only [Option.map_some', Option.some.injEq] at hc
    have hd := intersect_pos hi
    rw [← hc]
    exact hd

/-- The concrete portal scenario of C1: two 4×4 square sectors sharing the
portal wall x = 4 (each side carries its own portal wall pointing at the
other), with the solid far wall x = 8 of sector B four units behind the
portal. -/
def portalSectorA : Sector :=
  ⟨[⟨0, 0, 4, 0, false, -1⟩, ⟨4, 0, 4, 4, true, 1⟩,
    ⟨4, 4, 0, 4, false, -1⟩, ⟨0, 4, 0, 0, false, -1⟩], 0, 3⟩

def portalSectorB : Sector :=
  ⟨[⟨4, 0, 8, 0, false, -1⟩, ⟨8, 0, 8, 4, false, -1⟩,
    ⟨8, 4, 4, 4, false, -1⟩, ⟨4, 4, 4, 0, true, 0⟩], 0, 3⟩

def portalMap : List Sector := [portalSectorA, portalSectorB]

/-- C1: at every depth step the scan tests the ray against every wall of every
sector and keeps the hit of smallest (strictly positive) distance, with ties
going to the first hit in sector-then-wall iteration order: the selected hit
splits the full candidate list into strictly-farther hits before it and
no-nearer hits after it, and no hit is selected exactly when no wall
intersects the ray. In the concrete two-sector portal scenario, the ray from
(2,2) along (1,0) first selects sector A's portal wall at distance 2 (the tied
mirror wall of sector B comes later in iteration order), then the far solid
wall of sector B, at a combined distance 5.99 within 0.01 of
(distance to portal) + (distance from portal to far wall) = 2 + 4. -/
theorem findClosestHit_nearest :
    (∀ (secs : List Sector) (rx ry dx dy : ℚ),
      (findClosestHit secs rx ry dx dy = none ↔ rayCandidates secs rx ry dx dy = []) ∧
      (∀ h : Hit, findClosestHit secs rx ry dx dy = some h →
        0 < h.dist ∧
        ∃ l1 l2, rayCandidates secs rx ry dx dy = l1 ++ h :: l2 ∧
          (∀ c ∈ l1, h.dist < c.dist) ∧ (∀ c ∈ l2, h.dist ≤ c.dist))) ∧
    (renderColumn portalMap 2 2 1 0).map
        (fun st => (st.hit.si, st.hit.wi, st.hit.wall.isPortal, st.totalDist)) =
      [(0, 1, true, 2), (1, 1, false, 599 / 100)] ∧
    |(599 / 100 : ℚ) - (2 + 4)| ≤ 1 / 100 := by
  refine ⟨fun secs rx ry dx dy => ⟨?_, ?_⟩, ?_, by norm_num [abs_le]⟩
  · rw [findClosestHit_eq_pickHit]
    exact pickHit_none_iff _
  · intro h hsome
    rw [findClosestHit_eq_pickHit] at hsome
    cases hcand : rayCandidates secs rx ry dx dy with
    | nil => rw [hcand] at hsome; simp [pickHit] at hsome
    | cons c t =>
      rw [hcand] at hsome
      have hstep : pickHit none (c :: t) = pickHit (some c) t := rfl
      rw [hstep] at hsome
      obtain ⟨r, hr, l1, l2, hdec, hl1, hl2⟩ := pickHit_some_spec t c
      rw [hr] at hsome
      obtain rfl : r = h := by injection hsome
      refine ⟨?_, l1, l2, hdec, hl1, hl2⟩
      refine rayCandidates_pos secs rx ry dx dy r ?_
      rw [hcand, hdec]
      exact List.mem_append_right _ (List.mem_cons_self _ _)
  · norm_num [renderColumn, getSectorForPosition, getSectorForPositionAux, pointInSector,
      crossings, wallCrossing, portalMap, portalSectorA, portalSectorB, playerEyeHeightOffset,
      MAX_PORTAL_DEPTH, castColumnAux, findClosestHit, scanWalls, intersectRayWithSegment,
      updateHit, List.enum, List.enumFrom]

end Engine

namespace Editor

/-- GRID_SIZE of src/editor/edit.cpp. -/
def GRID_SIZE : ℤ := 32

/-- struct Point of src/editor/edit.cpp (int coordinates). -/
structure Point where
  x : ℤ
  y : ℤ
deriving Repr, DecidableEq

/-- struct Wall of src/editor/edit.cpp. -/
structure Wall where
  p1 : Point
  p2 : Point
  isPortal : Bool := false
  adjoiningSector : ℤ := -1
deriving Repr, DecidableEq

/-- struct Sector of src/editor/edit.cpp. -/
structure Sector where
  walls : List Wall
  floorHeight : ℚ := 0
  ceilingHeight : ℚ := 4
deriving Repr, DecidableEq

instance : Inhabited Sector := ⟨⟨[], 0, 4⟩⟩

/-- One line of a map file, abstracted to its whitespace-separated numeric
tokens; `[]` is a blank line. -/
abbrev FLine := List ℚ

/-- `stream >> someInt` on one token: succeeds exactly when the token is
integral. -/
def qInt (q : ℚ) : Option ℤ :=
  if q.den = 1 then some q.num else none

/-- `header >> sectorID >> wallCount >> floorH >> ceilH` of loadMap
(src/editor/edit.cpp): needs at least four tokens, the first two integral. -/
def parseHeader (l : FLine) : Option (ℤ × ℤ × ℚ × ℚ) :=
  match l with
  | a :: b :: c :: d :: _ =>
    (qInt a).bind fun sectorID => (qInt b).map fun wallCount => (sectorID, wallCount, c, d)
  | _ => none

/-- `wallLine >> x1 >> y1 >> x2 >> y2 >> isPortalInt >> adjoiningSector` of
loadMap, followed by the construction of the Wall (grid coordinates are scaled
by GRID_SIZE, `isPortal = (isPortalInt != 0)`). -/
def parseWall (l : FLine) : Option Wall :=
  match l with
  | a :: b :: c :: d :: e :: f :: _ =>
    (qInt a).bind fun x1 => (qInt b).bind fun y1 => (qInt c).bind fun x2 =>
      (qInt d).bind fun y2 => (qInt e).bind fun isPortalInt => (qInt f).map fun adjoiningSector =>
        { p1 := ⟨x1 * GRID_SIZE, y1 * GRID_SIZE⟩
          p2 := ⟨x2 * GRID_SIZE, y2 * GRID_SIZE⟩
          isPortal := isPortalInt != 0
          adjoiningSector := adjoiningSector }
  | _ => none

/-- The wall-reading loop of loadMap: read `n` wall lines; `none` on EOF
(`Unexpected EOF reading walls`) or on a malformed wall line; otherwise the
walls in order and the remaining lines. -/
def readWalls : ℕ → List FLine → Option (List Wall × List FLine)
  | 0, ls => some ([], ls)
  | _ + 1, [] => none
  | n + 1, l :: ls =>
    match parseWall l with
    | none => none
    | some w =>
      match readWalls n ls with
      | none => none
      | some (ws, rest) => some (w :: ws, rest)

theorem readWalls_eq_some {n : ℕ} {ls ws rest} (h : readWalls n ls = some (ws, rest)) :
    ws.length = n ∧ rest = ls.drop n := by
  induction n generalizing ls ws rest with
  | zero => simp [readWalls] at h; simp [h.1, h.2]
  | succ n ih =>
    match ls with
    | [] => simp [readWalls] at h
    | l :: ls =>
      simp only [readWalls] at h
      match hp : parseWall l with
      | none => rw [hp] at h; simp at h
      | some w =>
        rw [hp] at h
        match hr : readWalls n ls with
        | none => rw [hr] at h; simp at h
        | some (ws', rest') =>
          rw [hr] at h
          simp only [Option.some.injEq, Prod.mk.injEq] at h
          obtain ⟨hw, hrest⟩ := h
          obtain ⟨hlen, hdrop⟩ := ih hr
          subst hw hrest
          simp [hlen, hdrop]

/-- The sector-reading loop of loadMap (`while (std::getline(in, line))` in
src/editor/edit.cpp): skip blank lines; parse a header (failure aborts with an
error, leaving the global sector list as accumulated so far); read the header's
wall count of wall lines (EOF or a malformed wall line likewise aborts); push
the sector; consume one separator line; continue. -/
def loadLines : List FLine → List Sector → Bool × List Sector
  | [], acc => (true, acc)
  | l :: rest, acc =>
    if l.isEmpty then loadLines rest acc
    else
      match parseHeader l with
      | none => (false, acc)
      | some (_, wallCount, floorH, ceilH) =>
        match hr : readWalls wallCount.toNat rest with
        | none => (false, acc)
        | some (ws, rest') =>
          loadLines (rest'.drop 1) (acc ++ [{ walls := ws, floorHeight := floorH, ceilingHeight := ceilH }])
termination_by ls _ => ls.length
decreasing_by
  · simp only [List.length_cons]; omega
  · have := (readWalls_eq_some hr).2
    subst this
    simp only [List.length_drop, List.length_cons]
    omega

/-- loadMap of src/editor/edit.cpp: `sectors.clear()` runs before any line is
parsed, so the previous sector collection `prev` never survives into the
result, whatever happens. The Bool is loadMap's return value. -/
def loadMap (lines : List FLine) (prev : List Sector) : Bool × List Sector :=
  loadLines lines []

/-- One wall line as saveMap (src/editor/edit.cpp) writes it: grid-quantized
coordinates (C++ int division by GRID_SIZE truncates toward zero), the portal
flag as 0/1, the adjoining sector index. -/
def wallLine (w : Wall) : FLine :=
  [((w.p1.x.tdiv GRID_SIZE : ℤ) : ℚ), ((w.p1.y.tdiv GRID_SIZE : ℤ) : ℚ),
   ((w.p2.x.tdiv GRID_SIZE : ℤ) : ℚ), ((w.p2.y.tdiv GRID_SIZE : ℤ) : ℚ),
   if w.isPortal then 1 else 0, (w.adjoiningSector : ℚ)]

/-- The lines saveMap writes for sector number i: the header, the wall lines,
a blank separator. -/
def saveSector (i : ℕ) (s : Sector) : List FLine :=
  ((i : ℚ) :: (s.walls.length : ℚ) :: s.floorHeight :: [s.ceilingHeight]) ::
    (s.walls.map wallLine ++ [[]])

/-- saveMap of src/editor/edit.cpp. -/
def saveMap (secs : List Sector) : List FLine :=
  (secs.enum.map fun p => saveSector p.1 p.2).flatten

/-- Unfolding lemma for loadLines at the empty file. -/
theorem loadLines_nil (acc : List Sector) : loadLines [] acc = (true, acc) := by
  rw [loadLines.eq_def]

/-- Unfolding lemma for loadLines at a nonempty file (the body of the source's
while loop, one pass). -/
theorem loadLines_cons (l : FLine) (rest : List FLine) (acc : List Sector) :
    loadLines (l :: rest) acc =
      if l.isEmpty then loadLines rest acc
      else
        match parseHeader l with
        | none => (false, acc)
        | some (_, wallCount, floorH, ceilH) =>
          match readWalls wallCount.toNat rest with
          | none => (false, acc)
          | some (ws, rest') =>
            loadLines (rest'.drop 1)
              (acc ++ [{ walls := ws, floorHeight := floorH, ceilingHeight := ceilH }]) := by
  rw [loadLines.eq_def]
  dsimp only
  by_cases hemp : l.isEmpty = true
  · rw [if_pos hemp, if_pos hemp]
  · rw [if_neg hemp, if_neg hemp]
    cases hph : parseHeader l with
    | none => rfl
    | some quad =>
      obtain ⟨id, wc, fh, ch⟩ := quad
      dsimp only
      cases hrw : readWalls wc.toNat rest with
      | none => rfl
      | some pr =>
        obtain ⟨ws, rest'⟩ := pr
        rfl

/-- deleteSector of src/editor/edit.cpp: the guard, the pre-erase renumbering
pass, the erase, and the post-erase renumbering pass, exactly as written. -/
def deleteSector (secs : List Sector) (sectorIndex : ℤ) : List Sector :=
  if sectorIndex < 0 ∨ (secs.length : ℤ) ≤ sectorIndex then secs
  else
    let pass1 := secs.map fun (sec : Sector) =>
      { sec with
        walls := sec.walls.map fun (w : Wall) =>
          if w.isPortal ∧ w.adjoiningSector = sectorIndex then
            { w with isPortal := false, adjoiningSector := -1 }
          else if w.isPortal ∧ sectorIndex < w.adjoiningSector then
            { w with adjoiningSector := w.adjoiningSector - 1 }
          else w }
    let removed := pass1.eraseIdx sectorIndex.toNat
    removed.map fun (sec : Sector) =>
      { sec with
        walls := sec.walls.map fun (w : Wall) =>
          if w.isPortal ∧ sectorIndex < w.adjoiningSector then
            { w with adjoiningSector := w.adjoiningSector - 1 }
          else w }

end Editor

namespace Engine

/-! ## Geometry kernel lemmas (C4) -/

theorem intersect_none_of_parallel (rx ry dx dy x1 y1 x2 y2 : ℚ)
    (h : |dx * (y2 - y1) - dy * (x2 - x1)| < 1 / 1000000) :
    intersectRayWithSegment rx ry dx dy x1 y1 x2 y2 = none := by
  simp only [intersectRayWithSegment]
  rw [if_pos h]

theorem intersect_some_iff (rx ry dx dy x1 y1 x2 y2 : ℚ)
    (h : 1 / 1000000 ≤ |dx * (y2 - y1) - dy * (x2 - x1)|) (t : ℚ) :
    intersectRayWithSegment rx ry dx dy x1 y1 x2 y2 = some t ↔
      0 < t ∧ ∃ u : ℚ, 0 ≤ u ∧ u ≤ 1 ∧
        rx + t * dx = x1 + u * (x2 - x1) ∧ ry + t * dy = y1 + u * (y2 - y1) := by
  have hD : dx * (y2 - y1) - dy * (x2 - x1) ≠ 0 := by
    intro h0
    rw [h0] at h
    norm_num at h
  have hnot : ¬ |dx * (y2 - y1) - dy * (x2 - x1)| < 1 / 1000000 := not_lt.mpr h
  have hunfold : intersectRayWithSegment rx ry dx dy x1 y1 x2 y2 =
      if 0 < ((x1 - rx) * (y2 - y1) - (y1 - ry) * (x2 - x1)) / (dx * (y2 - y1) - dy * (x2 - x1)) ∧
          0 ≤ ((x1 - rx) * dy - (y1 - ry) * dx) / (dx * (y2 - y1) - dy * (x2 - x1)) ∧
          ((x1 - rx) * dy - (y1 - ry) * dx) / (dx * (y2 - y1) - dy * (x2 - x1)) ≤ 1 then
        some (((x1 - rx) * (y2 - y1) - (y1 - ry) * (x2 - x1)) / (dx * (y2 - y1) - dy * (x2 - x1)))
      else none := by
    simp only [intersectRayWithSegment]
    rw [if_neg hnot]
  rw [hunfold]
  constructor
  · intro hsome
    split_ifs at hsome with hc
    · obtain ⟨htc, huc0, huc1⟩ := hc
      obtain rfl : ((x1 - rx) * (y2 - y1) - (y1 - ry) * (x2 - x1)) /
          (dx * (y2 - y1) - dy * (x2 - x1)) = t := by
        injection hsome
      refine ⟨htc, ((x1 - rx) * dy - (y1 - ry) * dx) / (dx * (y2 - y1) - dy * (x2 - x1)),
        huc0, huc1, ?_, ?_⟩
      · field_simp
        ring
      · field_simp
        ring
  · rintro ⟨ht, u, hu0, hu1, e1, e2⟩
    have et : ((x1 - rx) * (y2 - y1) - (y1 - ry) * (x2 - x1)) /
        (dx * (y2 - y1) - dy * (x2 - x1)) = t := by
      rw [div_eq_iff hD]
      linear_combination (x2 - x1) * e2 - (y2 - y1) * e1
    have eu : ((x1 - rx) * dy - (y1 - ry) * dx) / (dx * (y2 - y1) - dy * (x2 - x1)) = u := by
      rw [div_eq_iff hD]
      linear_combination dx * e2 - dy * e1
    rw [et, eu, if_pos ⟨ht, hu0, hu1⟩]

/-- C4: intersectRayWithSegment returns a hit exactly when the ray parameter is
strictly positive and the segment parameter lies in [0, 1] (endpoints
included), the returned distance being that ray parameter; and whenever the
cross-product denominator has magnitude below 1e-6 it returns no hit. -/
theorem intersectRayWithSegment_contract :
    ∀ rx ry dx dy x1 y1 x2 y2 : ℚ,
      (|dx * (y2 - y1) - dy * (x2 - x1)| < 1 / 1000000 →
        intersectRayWithSegment rx ry dx dy x1 y1 x2 y2 = none) ∧
      (1 / 1000000 ≤ |dx * (y2 - y1) - dy * (x2 - x1)| →
        ∀ t : ℚ, (intersectRayWithSegment rx ry dx dy x1 y1 x2 y2 = some t ↔
          0 < t ∧ ∃ u : ℚ, 0 ≤ u ∧ u ≤ 1 ∧
            rx + t * dx = x1 + u * (x2 - x1) ∧ ry + t * dy = y1 + u * (y2 - y1))) :=
  fun rx ry dx dy x1 y1 x2 y2 =>
    ⟨intersect_none_of_parallel rx ry dx dy x1 y1 x2 y2,
     fun h t => intersect_some_iff rx ry dx dy x1 y1 x2 y2 h t⟩

end Engine

namespace Editor

/-! ## Load failure behavior (C3) -/

/-- C3 counterexample file: one well-formed sector record (header, one wall
line, blank separator) followed by a malformed header line (one lone token). -/
def cexFile : List FLine :=
  [[0, 1, 0, 4], [0, 0, 1, 0, 0, -1], [], [5]]

/-- The sector collection cexFile's good prefix parses to. -/
def cexLoaded : List Sector :=
  [⟨[⟨⟨0, 0⟩, ⟨32, 0⟩, false, -1⟩], 0, 4⟩]

/-- A nonempty previously loaded collection. -/
def cexPrev : List Sector := [⟨[], 7, 9⟩]

/-! ## Sector deletion renumbering (C9) -/

/-- The failing input of C9: three sectors; the middle one holds a portal wall
whose adjoiningSector is 2; sector 0 is deleted. -/
def delDemo : List Sector :=
  [⟨[], 0, 4⟩, ⟨[⟨⟨0, 0⟩, ⟨32, 0⟩, true, 2⟩], 0, 4⟩, ⟨[], 0, 4⟩]

/-- C9 (evaluation at the failing input): after deleting sector 0, the portal
wall that pointed at sector 2 ends with adjoiningSector 0, not the claimed
j - 1 = 1 — deleteSector's renumbering loops run both before and after the
erase, so every reference j > k + 1 is decremented twice and no longer
designates the same sector contents. -/
theorem deleteSector_doubleDecrement :
    deleteSector delDemo 0 =
      [⟨[⟨⟨0, 0⟩, ⟨32, 0⟩, true, 0⟩], 0, 4⟩, ⟨[], 0, 4⟩] ∧ (0 : ℤ) ≠ 2 - 1 := by
  constructor
  · norm_num [deleteSector, delDemo, List.eraseIdx]
  · norm_num

end Editor

namespace Editor

/-! ## Save/load round trip (C8) -/

/-- All four coordinates of a wall are multiples of GRID_SIZE. Every wall
loadMap constructs is of this form (parsed grid coordinates are scaled by
GRID_SIZE), and it is exactly what makes saveMap's integer division by
GRID_SIZE lossless. -/
def wallAligned (w : Wall) : Prop :=
  GRID_SIZE ∣ w.p1.x ∧ GRID_SIZE ∣ w.p1.y ∧ GRID_SIZE ∣ w.p2.x ∧ GRID_SIZE ∣ w.p2.y

theorem qInt_intCast (n : ℤ) : qInt ((n : ℤ) : ℚ) = some n := by
  simp [qInt]

theorem parseWall_aligned {l : FLine} {w : Wall} (h : parseWall l = some w) :
    wallAligned w := by
  match l with
  | [] => simp [parseWall] at h
  | [a] => simp [parseWall] at h
  | [a, b] => simp [parseWall] at h
  | [a, b, c] => simp [parseWall] at h
  | [a, b, c, d] => simp [parseWall] at h
  | [a, b, c, d, e] => simp [parseWall] at h
  | a :: b :: c :: d :: e :: f :: rest =>
    simp only [parseWall, Option.bind_eq_some, Option.map_eq_some'] at h
    obtain ⟨x1, hx1, y1, hy1, x2, hx2, y2, hy2, p, hp, adj, hadj, hw⟩ := h
    subst hw
    exact ⟨dvd_mul_left _ _, dvd_mul_left _ _, dvd_mul_left _ _, dvd_mul_left _ _⟩

theorem parseWall_wallLine {w : Wall} (hal : wallAligned w) :
    parseWall (wallLine w) = some w := by
  obtain ⟨⟨p1x, p1y⟩, ⟨p2x, p2y⟩, ip, adj⟩ := w
  obtain ⟨⟨k1, hk1⟩, ⟨k2, hk2⟩, ⟨k3, hk3⟩, ⟨k4, hk4⟩⟩ := hal
  simp only at hk1 hk2 hk3 hk4
  subst hk1 hk2 hk3 hk4
  have h32 : GRID_SIZE ≠ 0 := by norm_num [GRID_SIZE]
  have t1 : (k1 * GRID_SIZE).tdiv GRID_SIZE = k1 := by
    rw [mul_comm]
    exact Int.mul_tdiv_cancel_left k1 h32
  have t2 : (k2 * GRID_SIZE).tdiv GRID_SIZE = k2 := by
    rw [mul_comm]
    exact Int.mul_tdiv_cancel_left k2 h32
  have t3 : (k3 * GRID_SIZE).tdiv GRID_SIZE = k3 := by
    rw [mul_comm]
    exact Int.mul_tdiv_cancel_left k3 h32
  have t4 : (k4 * GRID_SIZE).tdiv GRID_SIZE = k4 := by
    rw [mul_comm]
    exact Int.mul_tdiv_cancel_left k4 h32
  cases ip <;>
    simp [wallLine, parseWall, qInt_intCast, qInt, t1, t2, t3, t4, mul_comm]

theorem readWalls_walls_aligned :
    ∀ {n : ℕ} {ls : List FLine} {ws rest}, readWalls n ls = some (ws, rest) →
      ∀ w ∈ ws, wallAligned w := by
  intro n
  induction n with
  | zero =>
    intro ls ws rest h
    simp only [readWalls, Option.some.injEq, Prod.mk.injEq] at h
    obtain ⟨h1, -⟩ := h
    subst h1
    simp
  | succ n ih =>
    intro ls ws rest h
    match ls with
    | [] => simp [readWalls] at h
    | l :: ls =>
      simp only [readWalls] at h
      match hp : parseWall l with
      | none => rw [hp] at h; simp at h
      | some w =>
        rw [hp] at h
        match hr : readWalls n ls with
        | none => rw [hr] at h; simp at h
        | some pr =>
          obtain ⟨ws', rest'⟩ := pr
          rw [hr] at h
          simp only [Option.some.injEq, Prod.mk.injEq] at h
          obtain ⟨hw, -⟩ := h
          subst hw
          intro x hx
          rcases List.mem_cons.mp hx with rfl | hx
          · exact parseWall_aligned hp
          · exact ih hr x hx

theorem readWalls_save (ws : List Wall) (tail : List FLine) :
    (∀ w ∈ ws, wallAligned w) →
    readWalls ws.length (ws.map wallLine ++ tail) = some (ws, tail) := by
  induction ws with
  | nil => intro h; simp [readWalls]
  | cons w rest ih =>
    intro h
    have h1 := parseWall_wallLine (h w (List.mem_cons_self _ _))
    have h2 := ih fun x hx => h x (List.mem_cons_of_mem _ hx)
    simp [readWalls, h1, h2]

theorem loadLines_save :
    ∀ (secs : List Sector) (k : ℕ) (acc : List Sector),
      (∀ s ∈ secs, ∀ w ∈ s.walls, wallAligned w) →
      loadLines (((secs.enumFrom k).map fun p => saveSector p.1 p.2).flatten) acc =
        (true, acc ++ secs) := by
  intro secs
  induction secs with
  | nil =>
    intro k acc h
    simp [List.enumFrom, loadLines_nil]
  | cons s rest ih =>
    intro k acc h
    have hs : ∀ w ∈ s.walls, wallAligned w := h s (List.mem_cons_self _ _)
    have hrest : ∀ s' ∈ rest, ∀ w ∈ s'.walls, wallAligned w :=
      fun s' hs' => h s' (List.mem_cons_of_mem _ hs')
    have hsplit : ((List.enumFrom k (s :: rest)).map fun p => saveSector p.1 p.2).flatten
        = saveSector k s ++ ((List.enumFrom (k + 1) rest).map fun p => saveSector p.1 p.2).flatten := by
      simp [List.enumFrom]
    rw [hsplit]
    have hsec : saveSector k s = ((k : ℚ) :: (s.walls.length : ℚ) :: s.floorHeight ::
        [s.ceilingHeight]) :: (s.walls.map wallLine ++ [[]]) := rfl
    rw [hsec, List.cons_append, loadLines_cons, if_neg (by simp)]
    have hph : parseHeader ((k : ℚ) :: (s.walls.length : ℚ) :: s.floorHeight ::
        [s.ceilingHeight]) =
        some ((k : ℤ), ((s.walls.length : ℕ) : ℤ), s.floorHeight, s.ceilingHeight) := by
      simp [parseHeader, qInt]
    rw [hph]
    dsimp only
    rw [List.append_assoc, List.singleton_append]
    have hto : (((s.walls.length : ℕ) : ℤ)).toNat = s.walls.length := Int.toNat_natCast _
    rw [hto]
    have hrw := readWalls_save s.walls
      ([] :: ((List.enumFrom (k + 1) rest).map fun p => saveSector p.1 p.2).flatten) hs
    rw [hrw]
    dsimp only
    rw [List.drop_one, List.tail_cons]
    have heta : (⟨s.walls, s.floorHeight, s.ceilingHeight⟩ : Sector) = s := rfl
    rw [heta, ih (k + 1) (acc ++ [s]) hrest]
    simp

theorem loadLines_aligned :
    ∀ (n : ℕ) (lines : List FLine), lines.length ≤ n → ∀ (acc S : List Sector),
      (∀ s ∈ acc, ∀ w ∈ s.walls, wallAligned w) →
      loadLines lines acc = (true, S) →
      ∀ s ∈ S, ∀ w ∈ s.walls, wallAligned w := by
  intro n
  induction n with
  | zero =>
    intro lines hlen acc S hacc hload
    obtain rfl : lines = [] := List.eq_nil_of_length_eq_zero (Nat.le_zero.mp hlen)
    rw [loadLines_nil] at hload
    obtain rfl : acc = S := by simpa using hload
    exact hacc
  | succ n ih =>
    intro lines hlen acc S hacc hload
    match lines with
    | [] =>
      rw [loadLines_nil] at hload
      obtain rfl : acc = S := by simpa using hload
      exact hacc
    | l :: rest =>
      rw [loadLines_cons] at hload
      by_cases hemp : l.isEmpty
      · rw [if_pos hemp] at hload
        refine ih rest ?_ acc S hacc hload
        simp only [List.length_cons] at hlen
        omega
      · rw [if_neg hemp] at hload
        cases hph : parseHeader l with
        | none => rw [hph] at hload; simp at hload
        | some quad =>
          obtain ⟨id, wc, fh, ch⟩ := quad
          rw [hph] at hload
          dsimp only at hload
          cases hrw : readWalls wc.toNat rest with
          | none => rw [hrw] at hload; simp at hload
          | some pr =>
            obtain ⟨ws, rest'⟩ := pr
            rw [hrw] at hload
            dsimp only at hload
            have hlen' : (rest'.drop 1).length ≤ n := by
              have h2 := (readWalls_eq_some hrw).2
              subst h2
              simp only [List.length_drop]
              simp only [List.length_cons] at hlen
              omega
            refine ih (rest'.drop 1) hlen' _ S ?_ hload
            intro s hs
            rcases List.mem_append.mp hs with hs | hs
            · exact hacc s hs
            · obtain rfl : s = ({ walls := ws, floorHeight := fh, ceilingHeight := ch } :
                  Sector) := List.mem_singleton.mp hs
              intro w hw
              exact readWalls_walls_aligned hrw w hw

/-- C8: a map that loads successfully, saved and reloaded, yields exactly the
same sector collection — same sector count, same (grid-quantized) wall
coordinates, same floor and ceiling heights, same portal flags and
adjoining-sector links — whatever sector collection was in memory before
either load: load(save(load(F))) = load(F). -/
theorem loadMap_saveMap_roundTrip :
    ∀ (lines : List FLine) (prev S prev' : List Sector),
      loadMap lines prev = (true, S) → loadMap (saveMap S) prev' = (true, S) := by
  intro lines prev S prev' h
  have hal : ∀ s ∈ S, ∀ w ∈ s.walls, wallAligned w :=
    loadLines_aligned lines.length lines le_rfl [] S (by simp) h
  have hsave := loadLines_save S 0 [] hal
  simpa [loadMap, saveMap, List.enum] using hsave

/-- The witness file of C8: one sector, one solid wall, blank separator. -/
def rtFile : List FLine := [[0, 1, 0, 4], [0, 0, 2, 0, 0, -1], []]

/-- What rtFile loads to. -/
def rtSectors : List Sector := [⟨[⟨⟨0, 0⟩, ⟨64, 0⟩, false, -1⟩], 0, 4⟩]

theorem loadMap_saveMap_roundTrip_witness :
    loadMap (saveMap rtSectors) [] = (true, rtSectors) :=
  loadMap_saveMap_roundTrip rtFile [] rtSectors []
    (by norm_num [loadMap, loadLines_cons, loadLines_nil, rtFile, readWalls, parseHeader,
      parseWall, qInt, rtSectors, GRID_SIZE])

end Editor

namespace Engine

/-! ## The engine's own map loader, loadMapFromFile of src/helpers.cpp (C3) -/

/-- A wall whose fields came from indeterminate locals: when a wall line of
loadMapFromFile fails to parse (EOF left the line empty, or tokens are missing
or non-integral where ints are read), the C++ constructs the Wall from
uninitialized variables. The embedding pins those indeterminate values to
zeros; no theorem below depends on the values, only on the fact that a wall is
pushed. -/
def unspecifiedWall : Wall := ⟨0, 0, 0, 0, false, 0⟩

/-- One wall line of loadMapFromFile: x1 y1 x2 y2 as doubles, isPortalInt and
adjoining as ints, then `Wall wall = { x1, y1, x2, y2, isPortalInt != 0,
adjoining }`. A failed extraction never aborts the load; it just leaves
indeterminate values (unspecifiedWall). -/
def parseWallLine (l : Editor.FLine) : Wall :=
  match l with
  | x1 :: y1 :: x2 :: y2 :: e :: f :: _ =>
    match Editor.qInt e, Editor.qInt f with
    | some isPortalInt, some adjoining => ⟨x1, y1, x2, y2, isPortalInt != 0, adjoining⟩
    | _, _ => unspecifiedWall
  | _ => unspecifiedWall

/-- The wall loop of loadMapFromFile: `for (int i = 0; i < wallCount; ++i)`
does a getline with no EOF check — at EOF the line is empty, the wall parse
fails, and the loop still runs and still pushes a wall each iteration. Returns
the pushed walls and the lines left over. -/
def readWallsEngine : ℕ → List Editor.FLine → List Wall × List Editor.FLine
  | 0, ls => ([], ls)
  | n + 1, [] => (parseWallLine [] :: (readWallsEngine n []).1, (readWallsEngine n []).2)
  | n + 1, l :: ls => (parseWallLine l :: (readWallsEngine n ls).1, (readWallsEngine n ls).2)

theorem readWallsEngine_snd_length : ∀ (n : ℕ) (ls : List Editor.FLine),
    (readWallsEngine n ls).2.length ≤ ls.length := by
  intro n
  induction n with
  | zero => intro ls; simp [readWallsEngine]
  | succ n ih =>
    intro ls
    cases ls with
    | nil => simpa [readWallsEngine] using ih []
    | cons l ls =>
      calc (readWallsEngine (n + 1) (l :: ls)).2.length
          = (readWallsEngine n ls).2.length := rfl
        _ ≤ ls.length := ih ls
        _ ≤ (l :: ls).length := by simp

/-- The sector loop of loadMapFromFile (src/helpers.cpp lines 124-159), run on
the file's lines after `sectors.clear()`. Blank lines are skipped (so are '#'
comment lines in the source: the token model cannot carry the marker, and both
take the same continue). A nonblank line whose header parse fails is ALSO just
skipped with `continue` — the load is not aborted and no error is raised. A
parsed header reads its wallCount wall lines (never aborting, see
readWallsEngine) and pushes the sector. -/
def loadMapFromFileAux : List Editor.FLine → List Sector → List Sector
  | [], acc => acc
  | l :: rest, acc =>
    if l.isEmpty then loadMapFromFileAux rest acc
    else
      match Editor.parseHeader l with
      | none => loadMapFromFileAux rest acc
      | some (_, wallCount, floorHeight, ceilingHeight) =>
        loadMapFromFileAux (readWallsEngine wallCount.toNat rest).2
          (acc ++ [{ walls := (readWallsEngine wallCount.toNat rest).1,
                     floorHeight := floorHeight, ceilingHeight := ceilingHeight }])
termination_by ls _ => ls.length
decreasing_by
  · simp only [List.length_cons]; omega
  · simp only [List.length_cons]; omega
  · simp only [List.length_cons]
    exact Nat.lt_succ_of_le (readWallsEngine_snd_length _ _)

/-- loadMapFromFile of src/helpers.cpp: returns void, so the caller receives
no error signal at all; the global sector collection is cleared before parsing
and the previous collection never survives. The embedding returns the new
collection; there is no error channel to model. -/
def loadMapFromFile (lines : List Editor.FLine) (prev : List Sector) : List Sector :=
  loadMapFromFileAux lines []

/-- Unfolding lemma for loadMapFromFileAux at the empty file. -/
theorem loadMapFromFileAux_nil (acc : List Sector) : loadMapFromFileAux [] acc = acc := by
  rw [loadMapFromFileAux.eq_def]

/-- Unfolding lemma for loadMapFromFileAux at a nonempty file. -/
theorem loadMapFromFileAux_cons (l : Editor.FLine) (rest : List Editor.FLine)
    (acc : List Sector) :
    loadMapFromFileAux (l :: rest) acc =
      if l.isEmpty then loadMapFromFileAux rest acc
      else
        match Editor.parseHeader l with
        | none => loadMapFromFileAux rest acc
        | some (_, wallCount, floorHeight, ceilingHeight) =>
          loadMapFromFileAux (readWallsEngine wallCount.toNat rest).2
            (acc ++ [{ walls := (readWallsEngine wallCount.toNat rest).1,
                       floorHeight := floorHeight, ceilingHeight := ceilingHeight }]) := by
  rw [loadMapFromFileAux.eq_def]

/-- The engine counterexample file: a malformed header line (a single token;
the editor loader aborts on exactly this shape) followed by one well-formed
sector record. -/
def engineCexFile : List Editor.FLine := [[9], [0, 1, 0, 3], [1, 1, 2, 2, 0, -1]]

/-- A nonempty previously loaded engine collection. -/
def engineCexPrev : List Sector := [⟨[], 5, 6⟩]

/-- What loadMapFromFile produces for engineCexFile: the record that comes
AFTER the malformed header — evidence the loader skipped it and continued
rather than aborting. -/
def engineCexLoaded : List Sector := [⟨[⟨1, 1, 2, 2, false, -1⟩], 0, 3⟩]

/-- A record announcing two walls but supplying only one wall line. -/
def engineTruncFile : List Editor.FLine := [[0, 2, 0, 3], [1, 1, 2, 2, 0, -1]]

end Engine

/-- C3 counterexample: with a malformed sector header in the file, neither of
the cited loaders behaves as the claim states. The editor loadMap does abort
with an error, but the previously loaded collection is replaced by the partial
parse instead of being left unchanged; the engine loadMapFromFile does not
abort and surfaces no error at all — it skips the malformed header line and
loads the record that follows it, likewise discarding the previous
collection. -/
theorem mapLoad_malformed_cex :
    (Editor.loadMap Editor.cexFile Editor.cexPrev = (false, Editor.cexLoaded) ∧
      Editor.cexLoaded ≠ Editor.cexPrev) ∧
    (Engine.loadMapFromFile Engine.engineCexFile Engine.engineCexPrev =
        Engine.engineCexLoaded ∧
      Engine.engineCexLoaded ≠ Engine.engineCexPrev) := by
  refine ⟨⟨?_, ?_⟩, ?_, ?_⟩
  · norm_num [Editor.loadMap, Editor.loadLines_cons, Editor.loadLines_nil, Editor.cexFile,
      Editor.readWalls, Editor.parseHeader, Editor.parseWall, Editor.qInt, Editor.cexLoaded,
      Editor.GRID_SIZE]
  · norm_num [Editor.cexLoaded, Editor.cexPrev]
  · norm_num [Engine.loadMapFromFile, Engine.loadMapFromFileAux_cons,
      Engine.loadMapFromFileAux_nil, Engine.engineCexFile, Engine.readWallsEngine,
      Engine.parseWallLine, Editor.parseHeader, Editor.qInt, Engine.engineCexLoaded]
  · norm_num [Engine.engineCexLoaded, Engine.engineCexPrev]

/-- C3 amended: the two cited loaders fail differently, and neither preserves
the prior collection. Editor loadMap: whenever its loop meets a nonblank line
whose header parse fails, or cannot read the announced number of wall lines,
it stops at once and returns failure together with the sectors accumulated so
far — the general abort-with-error behavior (first two conjuncts); its result
is independent of the previously loaded collection, which is cleared before
parsing (third conjunct); on the counterexample file it returns failure plus
the partial parse, for every prior collection (fourth). Engine
loadMapFromFile: it has no failure signal and does not abort — on the
counterexample file it skips the malformed header and still loads the record
behind it, for every prior collection (fifth), and a record with fewer wall
lines than its header announces still becomes a sector with the announced
number of walls, the missing ones read from indeterminate locals (sixth). -/
theorem mapLoad_failure_spec :
    (∀ (l : Editor.FLine) (rest : List Editor.FLine) (acc : List Editor.Sector),
      l.isEmpty = false → Editor.parseHeader l = none →
      Editor.loadLines (l :: rest) acc = (false, acc)) ∧
    (∀ (l : Editor.FLine) (rest : List Editor.FLine) (acc : List Editor.Sector)
        (id wc : ℤ) (fh ch : ℚ),
      l.isEmpty = false → Editor.parseHeader l = some (id, wc, fh, ch) →
      Editor.readWalls wc.toNat rest = none →
      Editor.loadLines (l :: rest) acc = (false, acc)) ∧
    (∀ (lines : List Editor.FLine) (p1 p2 : List Editor.Sector),
      Editor.loadMap lines p1 = Editor.loadMap lines p2) ∧
    (∀ prev : List Editor.Sector,
      Editor.loadMap Editor.cexFile prev = (false, Editor.cexLoaded)) ∧
    (∀ prev : List Engine.Sector,
      Engine.loadMapFromFile Engine.engineCexFile prev = Engine.engineCexLoaded) ∧
    (∀ prev : List Engine.Sector,
      (Engine.loadMapFromFile Engine.engineTruncFile prev).map
        (fun s => s.walls.length) = [2]) := by
  refine ⟨?_, ?_, fun lines p1 p2 => rfl, fun prev => ?_, fun prev => ?_, fun prev => ?_⟩
  · intro l rest acc hemp hph
    rw [Editor.loadLines_cons, if_neg (by simp [hemp]), hph]
  · intro l rest acc id wc fh ch hemp hph hrw
    rw [Editor.loadLines_cons, if_neg (by simp [hemp]), hph]
    dsimp only
    rw [hrw]
  · norm_num [Editor.loadMap, Editor.loadLines_cons, Editor.loadLines_nil, Editor.cexFile,
      Editor.readWalls, Editor.parseHeader, Editor.parseWall, Editor.qInt, Editor.cexLoaded,
      Editor.GRID_SIZE]
  · norm_num [Engine.loadMapFromFile, Engine.loadMapFromFileAux_cons,
      Engine.loadMapFromFileAux_nil, Engine.engineCexFile, Engine.readWallsEngine,
      Engine.parseWallLine, Editor.parseHeader, Editor.qInt, Engine.engineCexLoaded]
  · norm_num [Engine.loadMapFromFile, Engine.loadMapFromFileAux_cons,
      Engine.loadMapFromFileAux_nil, Engine.engineTruncFile, Engine.readWallsEngine,
      Engine.parseWallLine, Engine.unspecifiedWall, Editor.parseHeader, Editor.qInt]
